import Mathlib

/-!
# AgentFS backend model and verification

The repository ships only example clients (`filesystem_example.py`,
`kvstore_example.py`, `toolcalls_example.py`) of the AgentFS SDK; the
backend they call is described by the specification.  This file gives an
executable shallow embedding of that backend — the per-session record
store with its three views (filesystem, typed key-value map, tool-call
ledger) — and proves the specified properties about it.
-/

namespace AgentFS

/-! ## Association maps

The record store keeps key-unique collections; each view below is an
association list with first-binding-wins lookup. -/

/-- Look a key up in an association list, first binding wins. -/
def mapGet {α β : Type} [DecidableEq α] : List (α × β) → α → Option β
  | [], _ => none
  | e :: rest, k => if e.1 = k then some e.2 else mapGet rest k

/-- Bind a key, overwriting the first existing binding or appending. -/
def mapSet {α β : Type} [DecidableEq α] : List (α × β) → α → β → List (α × β)
  | [], k, v => [(k, v)]
  | e :: rest, k, v => if e.1 = k then (k, v) :: rest else e :: mapSet rest k v

/-- Remove every binding of a key. -/
def mapDel {α β : Type} [DecidableEq α] : List (α × β) → α → List (α × β)
  | [], _ => []
  | e :: rest, k => if e.1 = k then mapDel rest k else e :: mapDel rest k

/-! ## Filesystem view -/

/-- A canonical absolute path, as its slash-separated components; the
root path is the empty list. -/
abbrev Path := List String

/-- The kind of a filesystem node. -/
inductive NodeKind where
  | file
  | directory
  deriving DecidableEq, Repr

/-- Modelled from the spec: the FileNode record of the data model (the
backend implementation is not in the repository).  Attributes: kind,
content blob (files only, empty for directories), mtime and ctime; the
size attribute is derived from the content. -/
structure FileNode where
  kind : NodeKind
  content : String
  mtime : Nat
  ctime : Nat
  deriving DecidableEq, Repr

/-- Size in bytes of a node's content. -/
def FileNode.size (n : FileNode) : Nat := n.content.length

/-- A file node with the given content, written at time t. -/
def FileNode.mkFile (c : String) (mt ct : Nat) : FileNode := ⟨.file, c, mt, ct⟩

/-- A directory node created at time t. -/
def FileNode.mkDir (mt ct : Nat) : FileNode := ⟨.directory, "", mt, ct⟩

/-- Modelled from the spec: the "fs" collection of the record store,
mapping each path to its FileNode. -/
abbrev Fs := List (Path × FileNode)

/-- The initial filesystem of a fresh session: just the root directory. -/
def Fs.init : Fs := [([], FileNode.mkDir 0 0)]

/-- The error taxonomy of the specification. -/
inductive FsError where
  | NotFound
  | AlreadyExists
  | TargetExists
  | NotADirectory
  | IsADirectory
  | DirectoryNotEmpty
  | ParentNotFound
  | StoreUnavailable
  deriving DecidableEq, Repr

/-- Modelled from the spec: the Path Index resolve operation — look a
path up in the "fs" collection. -/
def resolve (fs : Fs) (p : Path) : Option FileNode := mapGet fs p

/-- Does path a stand at or above path b (component-wise prefix)? -/
def pfx : Path → Path → Bool
  | [], _ => true
  | _ :: _, [] => false
  | a :: as, b :: bs => decide (a = b) && pfx as bs

/-- The name b bears as an immediate child of p, if any. -/
def childName (p k : Path) : Option String :=
  match k.getLast? with
  | none => none
  | some n => if k = p ++ [n] then some n else none

/-- Names of the immediate children of p present in the collection. -/
def childNames (fs : Fs) (p : Path) : List String :=
  (fs.map Prod.fst).filterMap (childName p)

/-- Does the directory p have any child entry? -/
def hasChild (fs : Fs) (p : Path) : Bool :=
  fs.any (fun e => (childName p e.1).isSome)

/-- Modelled from the spec: writeFile.  The parent directory must
already exist — no intermediate directory is created implicitly — else
the call fails with ParentNotFound; an existing file is overwritten with
size and mtime updated; a path naming an existing directory fails with
IsADirectory. -/
def writeFile (fs : Fs) (p : Path) (c : String) (t : Nat) : Except FsError Fs :=
  if p = [] then .error .IsADirectory
  else
    match resolve fs p.dropLast with
    | none => .error .ParentNotFound
    | some parent =>
      if parent.kind = .directory then
        match resolve fs p with
        | some node =>
          if node.kind = .directory then .error .IsADirectory
          else .ok (mapSet fs p (FileNode.mkFile c t node.ctime))
        | none => .ok (mapSet fs p (FileNode.mkFile c t t))
      else .error .NotADirectory

/-- Modelled from the spec: readFile — content bytes of a file, NotFound
if absent, IsADirectory if the path names a directory. -/
def readFile (fs : Fs) (p : Path) : Except FsError String :=
  match resolve fs p with
  | none => .error .NotFound
  | some node =>
    if node.kind = .directory then .error .IsADirectory else .ok node.content

/-- writeFile followed by readFile of the same path. -/
def writeRead (fs : Fs) (p : Path) (c : String) (t : Nat) : Except FsError String :=
  match writeFile fs p c t with
  | .error e => .error e
  | .ok fs' => readFile fs' p

/-- Modelled from the spec: mkdir — the parent must exist and be a
directory, and the path must be free. -/
def mkdir (fs : Fs) (p : Path) (t : Nat) : Except FsError Fs :=
  if p = [] then .error .AlreadyExists
  else
    match resolve fs p.dropLast with
    | none => .error .ParentNotFound
    | some parent =>
      if parent.kind = .directory then
        match resolve fs p with
        | some _ => .error .AlreadyExists
        | none => .ok (mapSet fs p (FileNode.mkDir t t))
      else .error .NotADirectory

/-- The metadata returned by stat. -/
structure StatInfo where
  kind : NodeKind
  size : Nat
  mtime : Nat
  deriving DecidableEq, Repr

/-- Modelled from the spec: stat — kind, size and mtime of a node. -/
def stat (fs : Fs) (p : Path) : Except FsError StatInfo :=
  match resolve fs p with
  | none => .error .NotFound
  | some node => .ok ⟨node.kind, node.size, node.mtime⟩

/-- Modelled from the spec: readdir — the child names of a directory in
lexicographic order, derived by scanning the collection's keys. -/
def readdir (fs : Fs) (p : Path) : Except FsError (List String) :=
  match resolve fs p with
  | none => .error .NotFound
  | some node =>
    if node.kind = .directory then
      .ok (List.insertionSort (· ≤ ·) (childNames fs p).dedup)
    else .error .NotADirectory

/-- Modelled from the spec: remove — a non-recursive remove of a
non-empty directory fails with DirectoryNotEmpty; a recursive remove
drops the whole subtree in one batch. -/
def remove (fs : Fs) (p : Path) (recursive : Bool) : Except FsError Fs :=
  match resolve fs p with
  | none => .error .NotFound
  | some node =>
    if node.kind = .directory then
      if recursive then .ok (fs.filter (fun e => !(pfx p e.1)))
      else if hasChild fs p then .error .DirectoryNotEmpty
      else .ok (mapDel fs p)
    else .ok (mapDel fs p)

/-- Relocate one record-store entry from under old to under new. -/
def renameMove (old new : Path) (e : Path × FileNode) : Path × FileNode :=
  if pfx old e.1 then (new ++ e.1.drop old.length, e.2) else e

/-- Modelled from the spec: rename — one atomic batch that rewrites the
key of the renamed node and of every descendant from the old prefix to
the new one; renaming onto an existing non-empty directory fails with
TargetExists, onto another existing path overwrites it. -/
def rename (fs : Fs) (old new : Path) : Except FsError Fs :=
  match resolve fs old with
  | none => .error .NotFound
  | some _ =>
    match resolve fs new with
    | some tnode =>
      if tnode.kind = .directory then
        if hasChild fs new then .error .TargetExists
        else .ok ((mapDel fs new).map (renameMove old new))
      else .ok ((mapDel fs new).map (renameMove old new))
    | none => .ok (fs.map (renameMove old new))

/-- A concrete filesystem as built by the filesystem example: the root,
a documents directory and two files under it. -/
def exampleFs : Fs :=
  [([], FileNode.mkDir 0 0),
   (["documents"], FileNode.mkDir 1 1),
   (["documents", "readme.txt"], FileNode.mkFile "Hello, World!" 2 2),
   (["documents", "data.txt"], FileNode.mkFile "Some data" 3 3)]

/-! ## KV view -/

/-- Modelled from the spec: KVEntry values — a tagged union over string,
integer, boolean and structured object, preserved end-to-end so that
round-tripping through storage never coerces one type into another. -/
inductive KVValue where
  | str (s : String)
  | int (n : Int)
  | bool (b : Bool)
  | obj (fields : List (String × KVValue))

/-- Modelled from the spec: the "kv" collection of the record store, an
independent key namespace from the filesystem view. -/
abbrev KVStore := List (String × KVValue)

namespace KV

/-- Modelled from the spec: set — binds a key to a tagged value,
overwriting any previous binding (no history retained). -/
def set (kv : KVStore) (k : String) (v : KVValue) : KVStore := mapSet kv k v

/-- Modelled from the spec: get — the value bound to a key, or an
explicit not-found result as an ordinary value, never a default. -/
def get (kv : KVStore) (k : String) : Option KVValue := mapGet kv k

/-- Modelled from the spec: delete — removes the binding; deleting an
absent key succeeds silently. -/
def delete (kv : KVStore) (k : String) : KVStore := mapDel kv k

end KV

/-! ## Tool-call ledger -/

/-- The status of a tool call: pending, or one of the two terminal
states carrying the output payload or the error message. -/
inductive ToolStatus where
  | pending
  | success (output : KVValue)
  | failure (message : String)

/-- Is this status one of the two terminal states? -/
def ToolStatus.isTerminal : ToolStatus → Bool
  | .pending => false
  | .success _ => true
  | .failure _ => true

/-- Is this status the success terminal state? -/
def ToolStatus.isSuccess : ToolStatus → Bool
  | .success _ => true
  | _ => false

/-- Modelled from the spec: a ToolCall ledger record — id, name, start
timestamp, input payload, status, and end timestamp once terminal. -/
structure ToolCall where
  id : Nat
  name : String
  startTs : Nat
  input : KVValue
  status : ToolStatus
  endTs : Option Nat

/-- Duration of a completed call, end minus start. -/
def ToolCall.duration (c : ToolCall) : Nat := (c.endTs.getD c.startTs) - c.startTs

/-- The incrementally maintained per-name aggregate record: count of
terminal calls, success and failure counters, and the running sum of
durations for mean computation. -/
structure StatRec where
  total : Nat
  successful : Nat
  failed : Nat
  durSum : Nat
  deriving DecidableEq, Repr

/-- Modelled from the spec: a ToolStat as reported by getStats — per
distinct tool name, total/successful/failed counts over terminal calls
and the mean duration in milliseconds. -/
structure ToolStat where
  name : String
  total_calls : Nat
  successful : Nat
  failed : Nat
  avg_duration_ms : ℚ

/-- Modelled from the spec: the "tools" collection of one session — the
atomically incremented id allocator, the ledger of call records in
call-start order, and the per-name aggregate side records co-written
with every terminal transition. -/
structure Ledger where
  nextId : Nat
  calls : List ToolCall
  stats : List (String × StatRec)

/-- The ledger of a fresh session: ids start at 1. -/
def Ledger.init : Ledger := ⟨1, [], []⟩

/-- The ledger error taxonomy. -/
inductive ToolError where
  | NotFound
  | AlreadyTerminal
  deriving DecidableEq, Repr

namespace Tools

/-- The first record bearing an id, if any. -/
def findCall (cs : List ToolCall) (id : Nat) : Option ToolCall :=
  match cs with
  | [] => none
  | c :: rest => if c.id = id then some c else findCall rest id

/-- Replace the first record bearing an id. -/
def setCall (cs : List ToolCall) (id : Nat) (c' : ToolCall) : List ToolCall :=
  match cs with
  | [] => []
  | c :: rest => if c.id = id then c' :: rest else c :: setCall rest id c'

/-- Modelled from the spec: start — allocates the next id from the
monotonically increasing counter, persists a pending record, and
returns the id. -/
def start (l : Ledger) (name : String) (input : KVValue) (t : Nat) : Ledger × Nat :=
  (⟨l.nextId + 1,
    l.calls ++ [⟨l.nextId, name, t, input, .pending, none⟩],
    l.stats⟩, l.nextId)

/-- Bump the per-name aggregate record for one newly terminal call. -/
def bumpStat (stats : List (String × StatRec)) (n : String) (isSucc : Bool)
    (dur : Nat) : List (String × StatRec) :=
  let r := (mapGet stats n).getD ⟨0, 0, 0, 0⟩
  mapSet stats n
    ⟨r.total + 1,
     r.successful + (if isSucc then 1 else 0),
     r.failed + (if isSucc then 0 else 1),
     r.durSum + dur⟩

/-- Modelled from the spec: the shared terminal transition of success
and error — fails NotFound on an unknown id and AlreadyTerminal on an
already terminal record, else sets the terminal status and end
timestamp and updates the per-name aggregates in the same batch. -/
def finish (l : Ledger) (id : Nat) (st : ToolStatus) (t : Nat) : Except ToolError Ledger :=
  match findCall l.calls id with
  | none => .error .NotFound
  | some c =>
    if c.status.isTerminal then .error .AlreadyTerminal
    else
      .ok ⟨l.nextId,
           setCall l.calls id { c with status := st, endTs := some t },
           bumpStat l.stats c.name st.isSuccess (t - c.startTs)⟩

/-- Modelled from the spec: success — the pending-to-success terminal
transition. -/
def success (l : Ledger) (id : Nat) (out : KVValue) (t : Nat) : Except ToolError Ledger :=
  finish l id (.success out) t

/-- Modelled from the spec: error — the pending-to-error terminal
transition. -/
def error (l : Ledger) (id : Nat) (msg : String) (t : Nat) : Except ToolError Ledger :=
  finish l id (.failure msg) t

/-- The terminal calls bearing a name, in ledger order. -/
def termOf (cs : List ToolCall) (n : String) : List ToolCall :=
  cs.filter (fun c => c.status.isTerminal && c.name == n)

/-- Sum of the durations of the terminal calls bearing a name. -/
def durSumOf (cs : List ToolCall) (n : String) : Nat :=
  ((termOf cs n).map ToolCall.duration).sum

/-- Mean duration over the terminal calls bearing a name. -/
def meanDuration (cs : List ToolCall) (n : String) : ℚ :=
  (durSumOf cs n : ℚ) / ((termOf cs n).length : ℚ)

/-- The mean stored in an aggregate record. -/
def StatRec.avg (r : StatRec) : ℚ := (r.durSum : ℚ) / (r.total : ℚ)

/-- Modelled from the spec: getStats — one ToolStat per distinct tool
name observed, sorted by name, read off the aggregate side records. -/
def getStats (l : Ledger) : List ToolStat :=
  (List.insertionSort (fun a b => a.1 ≤ b.1) l.stats).map
    (fun e => ⟨e.1, e.2.total, e.2.successful, e.2.failed, StatRec.avg e.2⟩)

/-- Modelled from the spec: getRecent — the calls whose start timestamp
is at least the given one, ordered by start timestamp ascending. -/
def getRecent (l : Ledger) (t : Nat) : List ToolCall :=
  List.insertionSort (fun a b => a.startTs ≤ b.startTs)
    (l.calls.filter (fun c => decide (t ≤ c.startTs)))

end Tools

/-- Well-formedness of a ledger: record ids are strictly increasing
along the ledger (so reflect call-start order and are pairwise
distinct) and every issued id is below the allocator counter. -/
def Ledger.Wf (l : Ledger) : Prop :=
  (l.calls.map ToolCall.id).Sorted (· < ·) ∧ ∀ c ∈ l.calls, c.id < l.nextId

/-- The aggregate side records agree with a recomputation over the
ledger: stats keys are unique, every aggregate record matches the
counts and duration sum of the terminal calls of its name, and every
terminal call has an aggregate record for its name. -/
def Ledger.StatsInv (l : Ledger) : Prop :=
  (l.stats.map Prod.fst).Nodup ∧
  (∀ e ∈ l.stats,
     e.2.total = (Tools.termOf l.calls e.1).length ∧
     e.2.successful = ((Tools.termOf l.calls e.1).filter (fun c => c.status.isSuccess)).length ∧
     e.2.failed = ((Tools.termOf l.calls e.1).filter (fun c => !c.status.isSuccess)).length ∧
     e.2.durSum = Tools.durSumOf l.calls e.1) ∧
  (∀ c ∈ l.calls, c.status.isTerminal = true → (mapGet l.stats c.name).isSome = true)

/-! ## Concrete fixtures mirroring the example clients -/

/-- The KV store after the kvstore example binds its first key. -/
def exampleKv : KVStore := [("username", KVValue.str "alice")]

/-- The ledger after the toolcalls example starts its first call. -/
def exampleLedger1 : Ledger :=
  (Tools.start Ledger.init "web_search" (KVValue.bool true) 10).1

/-- The ledger after that first call fails at time 12. -/
def exampleLedger2 : Ledger :=
  ⟨2,
   [⟨1, "web_search", 10, KVValue.bool true, ToolStatus.failure "Simulated failure", some 12⟩],
   [("web_search", ⟨1, 0, 1, 2⟩)]⟩

instance : IsTotal ToolCall (fun a b => a.startTs ≤ b.startTs) :=
  ⟨fun a b => Nat.le_total a.startTs b.startTs⟩

instance : IsTrans ToolCall (fun a b => a.startTs ≤ b.startTs) :=
  ⟨fun _ _ _ h1 h2 => Nat.le_trans h1 h2⟩

/-! ## Association-map lemmas -/

theorem mapGet_mapSet_self {α β : Type} [DecidableEq α] (m : List (α × β)) (k : α) (v : β) :
    mapGet (mapSet m k v) k = some v := by
  induction m with
  | nil => simp [mapSet, mapGet]
  | cons e rest ih =>
    by_cases h : e.1 = k
    · simp [mapSet, h, mapGet]
    · simp [mapSet, h, mapGet, ih]

theorem mapGet_mapDel_self {α β : Type} [DecidableEq α] (m : List (α × β)) (k : α) :
    mapGet (mapDel m k) k = none := by
  induction m with
  | nil => rfl
  | cons e rest ih =>
    by_cases h : e.1 = k
    · simp [mapDel, h, ih]
    · simp [mapDel, h, mapGet, ih]

theorem mem_of_mapGet {α β : Type} [DecidableEq α] {m : List (α × β)} {k : α} {v : β}
    (h : mapGet m k = some v) : (k, v) ∈ m := by
  induction m with
  | nil => exact absurd h (by simp [mapGet])
  | cons e rest ih =>
    by_cases hk : e.1 = k
    · simp only [mapGet, if_pos hk] at h
      injection h with h2
      subst hk
      rw [← h2, Prod.mk.eta]
      exact List.mem_cons_self e rest
    · simp only [mapGet, if_neg hk] at h
      exact List.mem_cons_of_mem e (ih h)

theorem mapGet_isSome_of_mem {α β : Type} [DecidableEq α] {m : List (α × β)} {k : α} {v : β}
    (h : (k, v) ∈ m) : (mapGet m k).isSome = true := by
  induction m with
  | nil => cases h
  | cons e rest ih =>
    by_cases hk : e.1 = k
    · simp [mapGet, hk]
    · rcases List.mem_cons.mp h with he | hr
      · exact absurd (congrArg Prod.fst he).symm hk
      · simp only [mapGet, if_neg hk]
        exact ih hr

theorem mapGet_isSome_iff {α β : Type} [DecidableEq α] (m : List (α × β)) (k : α) :
    (mapGet m k).isSome = true ↔ ∃ v, (k, v) ∈ m := by
  constructor
  · intro h
    obtain ⟨v, hv⟩ := Option.isSome_iff_exists.mp h
    exact ⟨v, mem_of_mapGet hv⟩
  · intro h
    obtain ⟨v, hv⟩ := h
    exact mapGet_isSome_of_mem hv

theorem mapGet_eq_none {α β : Type} [DecidableEq α] {m : List (α × β)} {k : α}
    (h : ∀ v, (k, v) ∉ m) : mapGet m k = none := by
  cases hm : mapGet m k with
  | none => rfl
  | some v => exact absurd (mem_of_mapGet hm) (h v)

theorem resolve_mapSet_self (fs : Fs) (p : Path) (v : FileNode) :
    resolve (mapSet fs p v) p = some v :=
  mapGet_mapSet_self fs p v

/-! ## Claim C1: write/read round trip -/

/-- C1 counterexample: the claim quantifies over every path whose parent
directory exists, but writing to a path that itself names an existing
directory fails with IsADirectory, so the subsequent read does not
return the written content. -/
theorem c1_counterexample :
    (∃ node, resolve exampleFs (List.dropLast ["documents"]) = some node ∧
       node.kind = NodeKind.directory) ∧
    writeRead exampleFs ["documents"] "x" 5 ≠ .ok "x" := by
  refine ⟨⟨FileNode.mkDir 0 0, rfl, rfl⟩, ?_⟩
  intro h
  rw [show writeRead exampleFs ["documents"] "x" 5 = Except.error FsError.IsADirectory
    from rfl] at h
  exact Except.noConfusion h

/-- C1 (amended): for every path p whose parent directory exists and
which does not itself name an existing directory, writeFile(p, c)
followed by readFile(p) returns exactly the content c. -/
theorem c1_write_read_roundtrip (fs : Fs) (p : Path) (c : String) (t : Nat)
    (d : FileNode) (hp : resolve fs p.dropLast = some d)
    (hd : d.kind = NodeKind.directory)
    (hnd : ∀ node, resolve fs p = some node → node.kind ≠ NodeKind.directory) :
    writeRead fs p c t = .ok c := by
  have hpe : p ≠ [] := by
    intro h
    subst h
    exact hnd d hp hd
  cases hq : resolve fs p with
  | none =>
    simp [writeRead, writeFile, hpe, hp, hd, hq, readFile,
      resolve_mapSet_self, FileNode.mkFile]
  | some node =>
    have hnode := hnd node hq
    simp [writeRead, writeFile, hpe, hp, hd, hq, hnode, readFile,
      resolve_mapSet_self, FileNode.mkFile]

/-- C1 witness: writing a fresh file under the existing documents
directory and reading it back yields the written content. -/
theorem c1_witness :
    (resolve exampleFs (List.dropLast ["documents", "notes.txt"]) = some (FileNode.mkDir 1 1) ∧
     (FileNode.mkDir 1 1).kind = NodeKind.directory ∧
     (∀ node, resolve exampleFs ["documents", "notes.txt"] = some node →
        node.kind ≠ NodeKind.directory)) ∧
    writeRead exampleFs ["documents", "notes.txt"] "hi" 9 = .ok "hi" := by
  have hnd : ∀ node, resolve exampleFs ["documents", "notes.txt"] = some node →
      node.kind ≠ NodeKind.directory := by
    intro node h
    rw [show resolve exampleFs ["documents", "notes.txt"] = none from rfl] at h
    exact Option.noConfusion h
  exact ⟨⟨rfl, rfl, hnd⟩,
    c1_write_read_roundtrip exampleFs ["documents", "notes.txt"] "hi" 9
      (FileNode.mkDir 1 1) rfl rfl hnd⟩

/-! ## Claim C2: missing parent fails ParentNotFound -/

/-- C2: for every non-root path whose parent directory does not exist,
writeFile fails with ParentNotFound and creates nothing — in particular
writing documents/readme.txt into a fresh session without a prior mkdir
fails with ParentNotFound. -/
theorem c2_writeFile_parentNotFound (fs : Fs) (p : Path) (c : String) (t : Nat)
    (hne : p ≠ []) (hpar : resolve fs p.dropLast = none) :
    writeFile fs p c t = .error .ParentNotFound := by
  simp [writeFile, hne, hpar]

/-- C2 witness: in a fresh session, writing documents/readme.txt with
no prior mkdir of documents fails with ParentNotFound. -/
theorem c2_witness :
    ((["documents", "readme.txt"] : Path) ≠ [] ∧
     resolve Fs.init (List.dropLast ["documents", "readme.txt"]) = none) ∧
    writeFile Fs.init ["documents", "readme.txt"] "Hello, World!" 0 =
      .error .ParentNotFound := by
  refine ⟨⟨by decide, rfl⟩, ?_⟩
  exact c2_writeFile_parentNotFound Fs.init ["documents", "readme.txt"]
    "Hello, World!" 0 (by decide) rfl

/-! ## Claim C3: typed KV round trip -/

/-- C3: for every key and every tagged value of each supported type,
set followed by get returns exactly that value with its type tag
preserved, and delete followed by get returns the not-found result. -/
theorem c3_kv_roundtrip (kv : KVStore) (k : String) (v : KVValue) :
    KV.get (KV.set kv k v) k = some v ∧ KV.get (KV.delete kv k) k = none :=
  ⟨mapGet_mapSet_self kv k v, mapGet_mapDel_self kv k⟩

/-! ## Claim C10: absent key yields an ordinary not-found value -/

/-- C10: get on an absent key completes with the explicit not-found
outcome as an ordinary value of the result type — the total function
get returns none rather than raising. -/
theorem c10_get_absent_is_value (kv : KVStore) (k : String)
    (h : ∀ v, (k, v) ∉ kv) : KV.get kv k = none :=
  mapGet_eq_none h

/-- C10 witness: the key active is absent from the example store and
get returns the none value for it. -/
theorem c10_witness :
    (∀ v, ("active", v) ∉ exampleKv) ∧ KV.get exampleKv "active" = none := by
  have h : ∀ v, ("active", v) ∉ exampleKv := by
    intro v hv
    simp only [exampleKv, List.mem_singleton] at hv
    have hk : ("active" : String) = "username" := congrArg Prod.fst hv
    exact absurd hk (by decide)
  exact ⟨h, c10_get_absent_is_value exampleKv "active" h⟩

/-! ## Claim C9: readdir lists exactly the present children -/

theorem childName_eq_some {p k : Path} {n : String} :
    childName p k = some n ↔ k = p ++ [n] := by
  constructor
  · intro h
    cases hl : k.getLast? with
    | none => simp [childName, hl] at h
    | some m =>
      simp only [childName, hl] at h
      by_cases hk : k = p ++ [m]
      · rw [if_pos hk] at h
        obtain rfl : m = n := Option.some.inj h
        exact hk
      · rw [if_neg hk] at h
        exact Option.noConfusion h
  · intro h
    subst h
    have hl : (p ++ [n]).getLast? = some n := by
      rw [List.getLast?_append_cons]
      rfl
    simp [childName, hl]

theorem mem_childNames {fs : Fs} {p : Path} {n : String} :
    n ∈ childNames fs p ↔ ∃ v, (p ++ [n], v) ∈ fs := by
  unfold childNames
  rw [List.mem_filterMap]
  constructor
  · intro h
    obtain ⟨k, hk, hcn⟩ := h
    rw [childName_eq_some] at hcn
    subst hcn
    obtain ⟨e, he, hfe⟩ := List.mem_map.mp hk
    refine ⟨e.2, ?_⟩
    rw [← hfe, Prod.mk.eta]
    exact he
  · intro h
    obtain ⟨v, hv⟩ := h
    exact ⟨p ++ [n], List.mem_map.mpr ⟨(p ++ [n], v), hv, rfl⟩,
      childName_eq_some.mpr rfl⟩

/-- C9: for a directory, readdir returns exactly the set of child names
present under it — the names created by mkdir or writeFile and not
since removed — in lexicographic order and with no duplicates. -/
theorem c9_readdir (fs : Fs) (p : Path) (node : FileNode)
    (h : resolve fs p = some node) (hk : node.kind = NodeKind.directory) :
    ∃ names, readdir fs p = .ok names ∧
      (∀ n, n ∈ names ↔ (resolve fs (p ++ [n])).isSome = true) ∧
      names.Sorted (· ≤ ·) ∧ names.Nodup := by
  refine ⟨List.insertionSort (· ≤ ·) (childNames fs p).dedup, ?_, ?_, ?_, ?_⟩
  · simp [readdir, h, hk]
  · intro n
    rw [List.Perm.mem_iff (List.perm_insertionSort _ _), List.mem_dedup,
      mem_childNames]
    exact (mapGet_isSome_iff fs (p ++ [n])).symm
  · exact List.sorted_insertionSort _ _
  · exact (List.perm_insertionSort _ _).nodup_iff.mpr (List.nodup_dedup _)

/-- C9 witness: listing the documents directory of the example
filesystem. -/
theorem c9_witness :
    (resolve exampleFs ["documents"] = some (FileNode.mkDir 1 1) ∧
     (FileNode.mkDir 1 1).kind = NodeKind.directory) ∧
    (∃ names, readdir exampleFs ["documents"] = .ok names ∧
      (∀ n, n ∈ names ↔ (resolve exampleFs (["documents"] ++ [n])).isSome = true) ∧
      names.Sorted (· ≤ ·) ∧ names.Nodup) :=
  ⟨⟨rfl, rfl⟩, c9_readdir exampleFs ["documents"] (FileNode.mkDir 1 1) rfl rfl⟩

/-! ## Claim C7: renaming a directory relocates every descendant -/

theorem pfx_refl (a : Path) : pfx a a = true := by
  induction a with
  | nil => rfl
  | cons x as ih => simp [pfx, ih]

theorem pfx_append (a q : Path) : pfx a (a ++ q) = true := by
  induction a with
  | nil => rfl
  | cons x as ih => simp [pfx, ih]

theorem append_drop_of_pfx {a b : Path} (h : pfx a b = true) :
    a ++ b.drop a.length = b := by
  induction a generalizing b with
  | nil => simp
  | cons x as ih =>
    cases b with
    | nil => exact absurd h (by simp [pfx])
    | cons y bs =>
      simp only [pfx, Bool.and_eq_true, decide_eq_true_eq] at h
      obtain ⟨rfl, h2⟩ := h
      simp [List.cons_append, ih h2]

theorem pfx_comparable {a b q r : Path} (h : a ++ q = b ++ r) :
    pfx a b = true ∨ pfx b a = true := by
  induction a generalizing b with
  | nil => exact Or.inl rfl
  | cons x as ih =>
    cases b with
    | nil => exact Or.inr rfl
    | cons y bs =>
      simp only [List.cons_append] at h
      injection h with h1 h2
      subst h1
      rcases ih h2 with hc | hc
      · exact Or.inl (by simp [pfx, hc])
      · exact Or.inr (by simp [pfx, hc])

theorem resolve_cons (k : Path) (v : FileNode) (m : Fs) (q : Path) :
    resolve ((k, v) :: m) q = if k = q then some v else resolve m q := rfl

theorem resolve_cons' (e : Path × FileNode) (m : Fs) (q : Path) :
    resolve (e :: m) q = if e.1 = q then some e.2 else resolve m q := rfl

theorem resolve_map_renameMove (fs : Fs) (old new : Path)
    (h1 : pfx old new = false) (h2 : pfx new old = false)
    (h3 : ∀ e ∈ fs, pfx new e.1 = false) (p : Path) :
    resolve (fs.map (renameMove old new)) (new ++ p) = resolve fs (old ++ p) ∧
    resolve (fs.map (renameMove old new)) (old ++ p) = none := by
  induction fs with
  | nil => exact ⟨rfl, rfl⟩
  | cons e rest ih =>
    have h3e : pfx new e.1 = false := h3 e (List.mem_cons_self e rest)
    have h3r : ∀ e' ∈ rest, pfx new e'.1 = false :=
      fun e' he' => h3 e' (List.mem_cons_of_mem e he')
    obtain ⟨ih1, ih2⟩ := ih h3r
    by_cases hpo : pfx old e.1 = true
    · -- the entry is moved to new ++ (its suffix under old)
      have he1 : old ++ e.1.drop old.length = e.1 := append_drop_of_pfx hpo
      have hmap : renameMove old new e = (new ++ e.1.drop old.length, e.2) := by
        simp [renameMove, hpo]
      have hiff : (new ++ e.1.drop old.length = new ++ p) ↔ (e.1 = old ++ p) := by
        constructor
        · intro hh
          have hdp : e.1.drop old.length = p := List.append_cancel_left hh
          rw [← he1, hdp]
        · intro hh
          rw [← he1] at hh
          have hdp : e.1.drop old.length = p := List.append_cancel_left hh
          rw [hdp]
      constructor
      · rw [List.map_cons, hmap, resolve_cons]
        rw [show resolve (e :: rest) (old ++ p) =
          if e.1 = old ++ p then some e.2 else resolve rest (old ++ p) from rfl]
        by_cases hc : e.1 = old ++ p
        · rw [if_pos (hiff.mpr hc), if_pos hc]
        · rw [if_neg (fun hh => hc (hiff.mp hh)), if_neg hc]
          exact ih1
      · rw [List.map_cons, hmap, resolve_cons]
        have hno : new ++ e.1.drop old.length ≠ old ++ p := by
          intro hh
          rcases pfx_comparable hh with hc | hc
          · exact Bool.noConfusion (hc.symm.trans h2)
          · exact Bool.noConfusion (hc.symm.trans h1)
        rw [if_neg hno]
        exact ih2
    · -- the entry is outside the old subtree and stays in place
      have hmap : renameMove old new e = e := by
        simp [renameMove, hpo]
      have hL : e.1 ≠ new ++ p := by
        intro hh
        rw [hh, pfx_append] at h3e
        exact Bool.noConfusion h3e
      have hR : e.1 ≠ old ++ p := by
        intro hh
        exact hpo (by rw [hh]; exact pfx_append old p)
      constructor
      · rw [List.map_cons, hmap, resolve_cons' e, resolve_cons' e,
          if_neg hL, if_neg hR]
        exact ih1
      · rw [List.map_cons, hmap, resolve_cons' e, if_neg hR]
        exact ih2

/-- C7: after a directory rename from old to new completes, resolving
new ++ p finds exactly what old ++ p held before and resolving old ++ p
returns the not-found result, for every relative path p; the rename is
a single state transition (one atomic batch), so no state with only
part of the subtree moved exists. -/
theorem c7_rename_moves_subtree (fs : Fs) (old new : Path) (fs' : Fs)
    (hok : rename fs old new = .ok fs')
    (h1 : pfx old new = false) (h2 : pfx new old = false)
    (h3 : ∀ e ∈ fs, pfx new e.1 = false) :
    ∀ p, resolve fs' (new ++ p) = resolve fs (old ++ p) ∧
         resolve fs' (old ++ p) = none := by
  have hnew : resolve fs new = none := by
    apply mapGet_eq_none
    intro v hv
    have hcon := h3 (new, v) hv
    rw [pfx_refl] at hcon
    exact Bool.noConfusion hcon
  cases ho : resolve fs old with
  | none =>
    unfold rename at hok
    rw [ho] at hok
    exact Except.noConfusion hok
  | some nd =>
    unfold rename at hok
    rw [ho, hnew] at hok
    obtain rfl : fs.map (renameMove old new) = fs' := by
      injection hok
    intro p
    exact resolve_map_renameMove fs old new h1 h2 h3 p

/-- C7 witness: renaming documents to docs in the example filesystem
relocates both files and empties the old prefix. -/
theorem c7_witness :
    (rename exampleFs ["documents"] ["docs"] =
       .ok (exampleFs.map (renameMove ["documents"] ["docs"])) ∧
     pfx ["documents"] ["docs"] = false ∧
     pfx ["docs"] ["documents"] = false ∧
     (∀ e ∈ exampleFs, pfx ["docs"] e.1 = false)) ∧
    ∀ p, resolve (exampleFs.map (renameMove ["documents"] ["docs"])) (["docs"] ++ p) =
           resolve exampleFs (["documents"] ++ p) ∧
         resolve (exampleFs.map (renameMove ["documents"] ["docs"])) (["documents"] ++ p) =
           none := by
  have h3 : ∀ e ∈ exampleFs, pfx ["docs"] e.1 = false := by decide
  exact ⟨⟨rfl, rfl, rfl, h3⟩,
    c7_rename_moves_subtree exampleFs ["documents"] ["docs"]
      (exampleFs.map (renameMove ["documents"] ["docs"])) rfl rfl rfl h3⟩

/-! ## Claim C4: id allocation is strictly increasing and unique -/

/-- C4: within one session, start returns an id strictly greater than
every previously issued id, preserves well-formedness (record ids stay
strictly increasing along the ledger, so no id is ever issued twice),
and appends the new pending record at the end, so id ordering reflects
call-start order. -/
theorem c4_start_ids (l : Ledger) (n : String) (inp : KVValue) (t : Nat)
    (h : l.Wf) :
    (∀ c ∈ l.calls, c.id < (Tools.start l n inp t).2) ∧
    ((Tools.start l n inp t).1).Wf ∧
    ((Tools.start l n inp t).1).calls =
      l.calls ++ [⟨(Tools.start l n inp t).2, n, t, inp, .pending, none⟩] := by
  obtain ⟨hs, hlt⟩ := h
  refine ⟨fun c hc => hlt c hc, ?_, rfl⟩
  constructor
  · show ((l.calls ++ [(⟨l.nextId, n, t, inp, .pending, none⟩ : ToolCall)]).map
      ToolCall.id).Pairwise (· < ·)
    rw [List.map_append, List.map_singleton, List.pairwise_append]
    refine ⟨hs, List.sorted_singleton _, ?_⟩
    intro a ha b hb
    rw [List.mem_singleton] at hb
    subst hb
    obtain ⟨c, hc, rfl⟩ := List.mem_map.mp ha
    exact hlt c hc
  · intro c hc
    show c.id < l.nextId + 1
    rcases List.mem_append.mp hc with h1 | h1
    · exact Nat.lt_trans (hlt c h1) (Nat.lt_succ_self _)
    · rw [List.mem_singleton] at h1
      subst h1
      exact Nat.lt_succ_self _

/-- C4 witness: starting a call on a fresh session. -/
theorem c4_witness :
    Ledger.init.Wf ∧
    ((∀ c ∈ Ledger.init.calls,
        c.id < (Tools.start Ledger.init "web_search" (KVValue.bool true) 10).2) ∧
     ((Tools.start Ledger.init "web_search" (KVValue.bool true) 10).1).Wf ∧
     ((Tools.start Ledger.init "web_search" (KVValue.bool true) 10).1).calls =
       Ledger.init.calls ++
         [⟨(Tools.start Ledger.init "web_search" (KVValue.bool true) 10).2,
           "web_search", 10, KVValue.bool true, .pending, none⟩]) := by
  have hw : Ledger.init.Wf := ⟨List.sorted_nil, by simp [Ledger.init]⟩
  exact ⟨hw, c4_start_ids Ledger.init "web_search" (KVValue.bool true) 10 hw⟩

/-! ## Claim C5: each record transitions at most once -/

theorem findCall_id {cs : List ToolCall} {id : Nat} {c : ToolCall}
    (h : Tools.findCall cs id = some c) : c.id = id := by
  induction cs with
  | nil => exact Option.noConfusion h
  | cons d rest ih =>
    by_cases hd : d.id = id
    · simp only [Tools.findCall, if_pos hd] at h
      obtain rfl : d = c := Option.some.inj h
      exact hd
    · simp only [Tools.findCall, if_neg hd] at h
      exact ih h

theorem findCall_setCall_self (cs : List ToolCall) (id : Nat) (c' : ToolCall)
    (h : (Tools.findCall cs id).isSome = true) (hid : c'.id = id) :
    Tools.findCall (Tools.setCall cs id c') id = some c' := by
  induction cs with
  | nil => simp [Tools.findCall] at h
  | cons d rest ih =>
    by_cases hd : d.id = id
    · simp [Tools.setCall, hd, Tools.findCall, hid]
    · simp only [Tools.setCall, if_neg hd, Tools.findCall]
      exact ih (by simpa only [Tools.findCall, if_neg hd] using h)

theorem mem_setCall_of_terminal {cs : List ToolCall} {id : Nat} {c0 c' c : ToolCall}
    (hfind : Tools.findCall cs id = some c0) (hp : c0.status.isTerminal = false)
    (hc : c ∈ cs) (ht : c.status.isTerminal = true) :
    c ∈ Tools.setCall cs id c' := by
  induction cs with
  | nil => cases hc
  | cons d rest ih =>
    by_cases hd : d.id = id
    · simp only [Tools.findCall, if_pos hd] at hfind
      obtain rfl : d = c0 := Option.some.inj hfind
      simp only [Tools.setCall, if_pos hd]
      rcases List.mem_cons.mp hc with he | hr
      · subst he
        rw [ht] at hp
        exact Bool.noConfusion hp
      · exact List.mem_cons_of_mem c' hr
    · simp only [Tools.findCall, if_neg hd] at hfind
      simp only [Tools.setCall, if_neg hd]
      rcases List.mem_cons.mp hc with he | hr
      · exact he ▸ List.mem_cons_self d _
      · exact List.mem_cons_of_mem d (ih hfind hr)

theorem finish_ok {l : Ledger} {id : Nat} {st : ToolStatus} {t : Nat} {l2 : Ledger}
    (h : Tools.finish l id st t = .ok l2) :
    ∃ c, Tools.findCall l.calls id = some c ∧ c.status.isTerminal = false ∧
      l2 = ⟨l.nextId,
            Tools.setCall l.calls id { c with status := st, endTs := some t },
            Tools.bumpStat l.stats c.name st.isSuccess (t - c.startTs)⟩ := by
  unfold Tools.finish at h
  split at h
  · exact Except.noConfusion h
  · rename_i c hf
    split at h
    · exact Except.noConfusion h
    · rename_i ht
      refine ⟨c, hf, by simpa using ht, ?_⟩
      injection h with h2
      exact h2.symm

/-- C5: a tool-call record transitions at most once — success or error
on an id with no record fails NotFound; after a successful terminal
transition, any further success or error on the same id fails
AlreadyTerminal; and a record already in a terminal state is never
mutated by a terminal transition of any id. -/
theorem c5_terminal_transitions (l : Ledger) (id : Nat) (out : KVValue)
    (msg : String) (t : Nat) :
    (Tools.findCall l.calls id = none →
       Tools.success l id out t = .error .NotFound ∧
       Tools.error l id msg t = .error .NotFound) ∧
    (∀ l2, (Tools.success l id out t = .ok l2 ∨ Tools.error l id msg t = .ok l2) →
       ∀ out2 msg2 t2,
         Tools.success l2 id out2 t2 = .error .AlreadyTerminal ∧
         Tools.error l2 id msg2 t2 = .error .AlreadyTerminal) ∧
    (∀ c ∈ l.calls, c.status.isTerminal = true →
       ∀ l2, (Tools.success l id out t = .ok l2 ∨ Tools.error l id msg t = .ok l2) →
         c ∈ l2.calls) := by
  refine ⟨?_, ?_, ?_⟩
  · intro hf
    constructor
    · simp [Tools.success, Tools.finish, hf]
    · simp [Tools.error, Tools.finish, hf]
  · rintro l2 (hok | hok) out2 msg2 t2
    · obtain ⟨c, hf, hp, rfl⟩ := finish_ok hok
      have hid : c.id = id := findCall_id hf
      have hfind2 := findCall_setCall_self l.calls id
        { c with status := .success out, endTs := some t } (by simp [hf]) hid
      constructor
      · simp [Tools.success, Tools.finish, hfind2, ToolStatus.isTerminal]
      · simp [Tools.error, Tools.finish, hfind2, ToolStatus.isTerminal]
    · obtain ⟨c, hf, hp, rfl⟩ := finish_ok hok
      have hid : c.id = id := findCall_id hf
      have hfind2 := findCall_setCall_self l.calls id
        { c with status := .failure msg, endTs := some t } (by simp [hf]) hid
      constructor
      · simp [Tools.success, Tools.finish, hfind2, ToolStatus.isTerminal]
      · simp [Tools.error, Tools.finish, hfind2, ToolStatus.isTerminal]
  · rintro c hc ht l2 (hok | hok)
    · obtain ⟨c0, hf, hp, rfl⟩ := finish_ok hok
      exact mem_setCall_of_terminal hf hp hc ht
    · obtain ⟨c0, hf, hp, rfl⟩ := finish_ok hok
      exact mem_setCall_of_terminal hf hp hc ht

/-- C5 witness: completing an unknown id fails NotFound and completing
the same id twice fails AlreadyTerminal, on the example ledger. -/
theorem c5_witness :
    (Tools.findCall exampleLedger1.calls 999 = none ∧
     Tools.success exampleLedger1 999 (KVValue.bool true) 12 = .error .NotFound ∧
     Tools.error exampleLedger1 999 "boom" 12 = .error .NotFound) ∧
    (Tools.error exampleLedger1 1 "Simulated failure" 12 = .ok exampleLedger2 ∧
     Tools.success exampleLedger2 1 (KVValue.bool true) 15 = .error .AlreadyTerminal ∧
     Tools.error exampleLedger2 1 "again" 15 = .error .AlreadyTerminal) := by
  have h1 := (c5_terminal_transitions exampleLedger1 999 (KVValue.bool true) "boom" 12).1 rfl
  have h2 := (c5_terminal_transitions exampleLedger1 1 (KVValue.bool true)
    "Simulated failure" 12).2.1 exampleLedger2 (Or.inr rfl) (KVValue.bool true) "again" 15
  exact ⟨⟨rfl, h1.1, h1.2⟩, ⟨rfl, h2.1, h2.2⟩⟩

/-! ## Claim C8: getRecent filters by start timestamp and sorts -/

/-- C8: for every timestamp t, getRecent returns exactly the records
whose start timestamp is at least t — every qualifying call and no
other — ordered by start timestamp ascending. -/
theorem c8_getRecent (l : Ledger) (t : Nat) :
    (∀ c, c ∈ Tools.getRecent l t ↔ (c ∈ l.calls ∧ t ≤ c.startTs)) ∧
    (Tools.getRecent l t).Sorted (fun a b => a.startTs ≤ b.startTs) := by
  constructor
  · intro c
    rw [Tools.getRecent, List.Perm.mem_iff (List.perm_insertionSort _ _),
      List.mem_filter]
    simp
  · exact List.sorted_insertionSort _ _

/-! ## Claim C6: getStats aggregates terminal calls per name -/

theorem findCall_append_fresh (cs : List ToolCall) (c0 : ToolCall) (id : Nat)
    (h : ∀ c ∈ cs, c.id ≠ id) (h0 : c0.id = id) :
    Tools.findCall (cs ++ [c0]) id = some c0 := by
  induction cs with
  | nil => simp [Tools.findCall, h0]
  | cons d rest ih =>
    have hd : d.id ≠ id := h d (List.mem_cons_self d rest)
    simp only [List.cons_append, Tools.findCall, if_neg hd]
    exact ih (fun c hc => h c (List.mem_cons_of_mem d hc))

theorem setCall_append_fresh (cs : List ToolCall) (c0 c' : ToolCall) (id : Nat)
    (h : ∀ c ∈ cs, c.id ≠ id) (h0 : c0.id = id) :
    Tools.setCall (cs ++ [c0]) id c' = cs ++ [c'] := by
  induction cs with
  | nil => simp [Tools.setCall, h0]
  | cons d rest ih =>
    have hd : d.id ≠ id := h d (List.mem_cons_self d rest)
    simp only [List.cons_append, Tools.setCall, if_neg hd]
    exact congrArg (fun xs => d :: xs) (ih (fun c hc => h c (List.mem_cons_of_mem d hc)))

theorem termOf_append (cs ds : List ToolCall) (n : String) :
    Tools.termOf (cs ++ ds) n = Tools.termOf cs n ++ Tools.termOf ds n := by
  simp [Tools.termOf, List.filter_append]

theorem termOf_eq_nil {cs : List ToolCall} {n : String}
    (h : ∀ c ∈ cs, c.status.isTerminal = true → c.name ≠ n) :
    Tools.termOf cs n = [] := by
  simp only [Tools.termOf, List.filter_eq_nil_iff]
  intro c hc
  simp only [Bool.and_eq_true, beq_iff_eq, not_and]
  exact fun ht => h c hc ht

/-- C6: getStats reports per-name counts over terminal calls only —
after start followed by success for a name, its reported ToolStat has
total_calls ≥ 1, successful ≥ 1, and avg_duration_ms equal to the mean
duration over all completed calls of that name; and after start
followed by error for a fresh name, its reported ToolStat has
total_calls = 1, failed = 1 and successful = 0. -/
theorem c6_getStats_after (l : Ledger) (n : String) (inp out : KVValue)
    (msg : String) (t0 t1 : Nat) (hw : l.Wf) (hs : l.StatsInv) :
    (∀ l2, Tools.success (Tools.start l n inp t0).1 (Tools.start l n inp t0).2 out t1 =
        .ok l2 →
      ∃ s ∈ Tools.getStats l2, s.name = n ∧ 1 ≤ s.total_calls ∧ 1 ≤ s.successful ∧
        s.avg_duration_ms = Tools.meanDuration l2.calls n) ∧
    ((∀ c ∈ l.calls, c.name ≠ n) →
      ∀ l2, Tools.error (Tools.start l n inp t0).1 (Tools.start l n inp t0).2 msg t1 =
          .ok l2 →
        ∃ s ∈ Tools.getStats l2, s.name = n ∧ s.total_calls = 1 ∧ s.failed = 1 ∧
          s.successful = 0) := by
  obtain ⟨hsorted, hlt⟩ := hw
  obtain ⟨hnodup, hmatch, hsome⟩ := hs
  have hne : ∀ c ∈ l.calls, c.id ≠ l.nextId := fun c hc => Nat.ne_of_lt (hlt c hc)
  have hr0 : ((mapGet l.stats n).getD ⟨0, 0, 0, 0⟩).total = (Tools.termOf l.calls n).length ∧
      ((mapGet l.stats n).getD ⟨0, 0, 0, 0⟩).successful =
        ((Tools.termOf l.calls n).filter (fun c => c.status.isSuccess)).length ∧
      ((mapGet l.stats n).getD ⟨0, 0, 0, 0⟩).failed =
        ((Tools.termOf l.calls n).filter (fun c => !c.status.isSuccess)).length ∧
      ((mapGet l.stats n).getD ⟨0, 0, 0, 0⟩).durSum = Tools.durSumOf l.calls n := by
    cases hm : mapGet l.stats n with
    | some r =>
      have h := hmatch (n, r) (mem_of_mapGet hm)
      simpa [hm] using h
    | none =>
      have hnil : Tools.termOf l.calls n = [] := by
        apply termOf_eq_nil
        intro c hc ht hn
        have hx := hsome c hc ht
        rw [hn, hm] at hx
        exact Bool.noConfusion hx
      simp [hm, hnil, Tools.durSumOf]
  constructor
  · intro l2 hok
    unfold Tools.success at hok
    obtain ⟨c, hf, hp, hl2⟩ := finish_ok hok
    simp only [Tools.start] at hf hl2
    have hfind := findCall_append_fresh l.calls ⟨l.nextId, n, t0, inp, .pending, none⟩
      l.nextId hne rfl
    obtain rfl : c = (⟨l.nextId, n, t0, inp, .pending, none⟩ : ToolCall) :=
      Option.some.inj (hf.symm.trans hfind)
    have hcalls2 : l2.calls =
        l.calls ++ [(⟨l.nextId, n, t0, inp, .success out, some t1⟩ : ToolCall)] := by
      rw [hl2]
      exact setCall_append_fresh l.calls ⟨l.nextId, n, t0, inp, .pending, none⟩
        ⟨l.nextId, n, t0, inp, .success out, some t1⟩ l.nextId hne rfl
    have hstats2 : l2.stats = Tools.bumpStat l.stats n true (t1 - t0) := by
      rw [hl2]
      rfl
    have hget2 : mapGet (Tools.bumpStat l.stats n true (t1 - t0)) n =
        some ⟨((mapGet l.stats n).getD ⟨0, 0, 0, 0⟩).total + 1,
              ((mapGet l.stats n).getD ⟨0, 0, 0, 0⟩).successful + 1,
              ((mapGet l.stats n).getD ⟨0, 0, 0, 0⟩).failed,
              ((mapGet l.stats n).getD ⟨0, 0, 0, 0⟩).durSum + (t1 - t0)⟩ := by
      simp [Tools.bumpStat, mapGet_mapSet_self]
    have hmem2 := mem_of_mapGet hget2
    have hterm2 : Tools.termOf l2.calls n = Tools.termOf l.calls n ++
        [(⟨l.nextId, n, t0, inp, .success out, some t1⟩ : ToolCall)] := by
      rw [hcalls2, termOf_append]
      simp [Tools.termOf, ToolStatus.isTerminal]
    have hsum2 : Tools.durSumOf l2.calls n =
        Tools.durSumOf l.calls n + (t1 - t0) := by
      simp only [Tools.durSumOf, hterm2, List.map_append, List.sum_append]
      simp [ToolCall.duration]
    refine ⟨⟨n, ((mapGet l.stats n).getD ⟨0, 0, 0, 0⟩).total + 1,
      ((mapGet l.stats n).getD ⟨0, 0, 0, 0⟩).successful + 1,
      ((mapGet l.stats n).getD ⟨0, 0, 0, 0⟩).failed,
      Tools.StatRec.avg ⟨((mapGet l.stats n).getD ⟨0, 0, 0, 0⟩).total + 1,
        ((mapGet l.stats n).getD ⟨0, 0, 0, 0⟩).successful + 1,
        ((mapGet l.stats n).getD ⟨0, 0, 0, 0⟩).failed,
        ((mapGet l.stats n).getD ⟨0, 0, 0, 0⟩).durSum + (t1 - t0)⟩⟩, ?_, rfl, ?_, ?_, ?_⟩
    · unfold Tools.getStats
      rw [hstats2]
      exact List.mem_map.mpr ⟨_, (List.perm_insertionSort _ _).mem_iff.mpr hmem2, rfl⟩
    · exact Nat.succ_le_succ (Nat.zero_le _)
    · exact Nat.succ_le_succ (Nat.zero_le _)
    · unfold Tools.StatRec.avg Tools.meanDuration
      simp only [hsum2, hterm2, List.length_append, List.length_singleton,
        hr0.1, hr0.2.2.2]
  · intro hfresh l2 hok
    unfold Tools.error at hok
    obtain ⟨c, hf, hp, hl2⟩ := finish_ok hok
    simp only [Tools.start] at hf hl2
    have hfind := findCall_append_fresh l.calls ⟨l.nextId, n, t0, inp, .pending, none⟩
      l.nextId hne rfl
    obtain rfl : c = (⟨l.nextId, n, t0, inp, .pending, none⟩ : ToolCall) :=
      Option.some.inj (hf.symm.trans hfind)
    have hnil : Tools.termOf l.calls n = [] :=
      termOf_eq_nil (fun c hc _ => hfresh c hc)
    have hstats2 : l2.stats = Tools.bumpStat l.stats n false (t1 - t0) := by
      rw [hl2]
      rfl
    have hget2 : mapGet (Tools.bumpStat l.stats n false (t1 - t0)) n =
        some ⟨((mapGet l.stats n).getD ⟨0, 0, 0, 0⟩).total + 1,
              ((mapGet l.stats n).getD ⟨0, 0, 0, 0⟩).successful,
              ((mapGet l.stats n).getD ⟨0, 0, 0, 0⟩).failed + 1,
              ((mapGet l.stats n).getD ⟨0, 0, 0, 0⟩).durSum + (t1 - t0)⟩ := by
      simp [Tools.bumpStat, mapGet_mapSet_self]
    have hmem2 := mem_of_mapGet hget2
    refine ⟨⟨n, ((mapGet l.stats n).getD ⟨0, 0, 0, 0⟩).total + 1,
      ((mapGet l.stats n).getD ⟨0, 0, 0, 0⟩).successful,
      ((mapGet l.stats n).getD ⟨0, 0, 0, 0⟩).failed + 1,
      Tools.StatRec.avg ⟨((mapGet l.stats n).getD ⟨0, 0, 0, 0⟩).total + 1,
        ((mapGet l.stats n).getD ⟨0, 0, 0, 0⟩).successful,
        ((mapGet l.stats n).getD ⟨0, 0, 0, 0⟩).failed + 1,
        ((mapGet l.stats n).getD ⟨0, 0, 0, 0⟩).durSum + (t1 - t0)⟩⟩, ?_, rfl, ?_, ?_, ?_⟩
    · unfold Tools.getStats
      rw [hstats2]
      exact List.mem_map.mpr ⟨_, (List.perm_insertionSort _ _).mem_iff.mpr hmem2, rfl⟩
    · rw [hr0.1, hnil]
      rfl
    · rw [hr0.2.2.1, hnil]
      rfl
    · rw [hr0.2.1, hnil]
      rfl

/-- C6 witness: a fresh session in which web_search is started and then
fails shows total_calls = 1, failed = 1, successful = 0 for that name. -/
theorem c6_witness :
    (Ledger.init.Wf ∧ Ledger.init.StatsInv ∧
     (∀ c ∈ Ledger.init.calls, c.name ≠ "web_search") ∧
     Tools.error (Tools.start Ledger.init "web_search" (KVValue.bool true) 10).1
       (Tools.start Ledger.init "web_search" (KVValue.bool true) 10).2
       "Simulated failure" 12 = .ok exampleLedger2) ∧
    (∃ s ∈ Tools.getStats exampleLedger2, s.name = "web_search" ∧ s.total_calls = 1 ∧
       s.failed = 1 ∧ s.successful = 0) := by
  have hw : Ledger.init.Wf := ⟨List.sorted_nil, by simp [Ledger.init]⟩
  have hs : Ledger.init.StatsInv :=
    ⟨List.nodup_nil, by simp [Ledger.init], by simp [Ledger.init]⟩
  have hfresh : ∀ c ∈ Ledger.init.calls, c.name ≠ "web_search" := by
    simp [Ledger.init]
  exact ⟨⟨hw, hs, hfresh, rfl⟩,
    (c6_getStats_after Ledger.init "web_search" (KVValue.bool true) (KVValue.bool true)
        "Simulated failure" 10 12 hw hs).2 hfresh exampleLedger2 rfl⟩

end AgentFS
